import Mathlib

/-!
Shallow embedding of the RAMCloud `Segment` subsystem (src/src/Segment.h) and
proofs of the specification claims about it.

Machine integers (`uint8_t`, `uint32_t`) are modelled as `Nat`; wherever a
claim ranges over a machine type the corresponding bound (`< 2^32`, `< 2^8`)
appears as an explicit hypothesis.  Pointers into seglet memory are modelled
as `(segletIndex, byteOffsetInSeglet)` pairs; the null pointer is `none` of
`Option (Nat × Nat)`.
-/

namespace RAMCloud

/-- Model of `downCast<uint8_t>`: succeeds (returns `some`) exactly when the
value fits in an unsigned byte, mirroring the assertion inside `downCast`. -/
def downCastU8 (n : Nat) : Option Nat :=
  if n < 256 then some n else none

/-- The if-chain of `Segment::EntryHeader::EntryHeader` (Segment.h lines
139-146) selecting the value stored in the high two bits of the packed
byte: `0` for lengths `< 0x100`, `1` for `< 0x10000`, `2` for `< 0x1000000`,
else `3`. -/
def lengthBucket (length : Nat) : Nat :=
  if length < 0x00000100 then 0
  else if length < 0x00010000 then 1
  else if length < 0x01000000 then 2
  else 3

/-- `Segment::EntryHeader`: a single packed byte holding the entry type in
its low 6 bits and the length-field width (minus one) in its high 2 bits. -/
structure EntryHeader where
  lengthBytesAndType : Nat
  deriving DecidableEq, Repr

/-- The constructor `EntryHeader(LogEntryType type, uint32_t length)`
(Segment.h lines 132-147): start from the type byte and or-in the length
bucket shifted into the top two bits.  The source asserts
`(type & ~0x3f) == 0`; theorems about this function carry `type < 64` as the
corresponding hypothesis. -/
def makeEntryHeader (type length : Nat) : EntryHeader :=
  ⟨type ||| (lengthBucket length <<< 6)⟩

/-- `Segment::EntryHeader::getType` (Segment.h lines 161-169): the low six
bits of the packed byte. -/
def EntryHeader.getType (h : EntryHeader) : Nat :=
  h.lengthBytesAndType &&& 0x3f

/-- `Segment::EntryHeader::getLengthBytes` (Segment.h lines 176-180):
`downCast<uint8_t>((lengthBytesAndType >> 6) + 1)`. -/
def EntryHeader.getLengthBytes (h : EntryHeader) : Option Nat :=
  downCastU8 ((h.lengthBytesAndType >>> 6) + 1)

/-- `Segment::EntryHeader::operator==` (Segment.h lines 186-190): compares
only the packed bytes. -/
def EntryHeader.beq (self other : EntryHeader) : Bool :=
  other.lengthBytesAndType == self.lengthBytesAndType

/-- Little-endian byte serialization of a value into a fixed number of
bytes; used for the variable-length length field and the packed
`Certificate` fields. -/
def leBytes : Nat → Nat → List Nat
  | 0, _ => []
  | w + 1, v => (v % 256) :: leBytes w (v / 256)

/-- Wire form of an `EntryHeader`: the struct is `__attribute__((__packed__))`
and contains exactly the one byte `lengthBytesAndType`
(`static_assert(sizeof(EntryHeader) == 1)`, Segment.h lines 192-193). -/
def encodeEntryHeader (h : EntryHeader) : List Nat :=
  [h.lengthBytesAndType % 256]

/-- `Segment::Certificate`: a packed pair of a `uint32_t` segment length and
a `uint32_t` CRC32C checksum (Segment.h lines 215-255). -/
structure Certificate where
  segmentLength : Nat
  checksum : Nat
  deriving DecidableEq, Repr

/-- Wire form of a `Certificate`: the packed struct is its two `uint32_t`
fields in order, 4 little-endian bytes each, with no padding
(`static_assert(sizeof(Certificate) == 8)`, Segment.h lines 256-257). -/
def encodeCertificate (c : Certificate) : List Nat :=
  leBytes 4 c.segmentLength ++ leBytes 4 c.checksum

/-- `Segment::DEFAULT_SEGMENT_SIZE` (Segment.h lines 82-87): `1 * 1024 *
1024` when compiled with `VALGRIND` defined, `8 * 1024 * 1024` otherwise.
The preprocessor condition is modelled as a `Bool` parameter. -/
def DEFAULT_SEGMENT_SIZE (valgrind : Bool) : Nat :=
  if valgrind then 1 * 1024 * 1024 else 8 * 1024 * 1024

/-- Pointwise update of a byte store: write the bytes of `data` starting at
offset `start`. -/
def writeBytes (f : Nat → Nat) (start : Nat) : List Nat → (Nat → Nat)
  | [] => f
  | b :: rest => writeBytes (fun i => if i = start then b else f i) (start + 1) rest

/-- State of a `Segment` (fields of the class, Segment.h lines 337-397).
Seglet block pointers are modelled as opaque `Nat` block identifiers; the
byte contents of the logical segment are modelled by the flat function
`bytes`. -/
structure Segment where
  segletSize : Nat
  segletSizeShift : Nat
  segletBlocks : List Nat
  closed : Bool
  head : Nat
  bytes : Nat → Nat
  checksumFed : List Nat
  entryCounts : Nat → Nat
  entryLengths : Nat → Nat

/-- Physical location of logical byte `i`: per the documentation of
`segletBlocks` (Segment.h lines 362-365), `segletBlocks[0]` covers offsets
`0` through `segletSize - 1`, so logical byte `i` lives in block
`i / segletSize` at offset `i % segletSize`. -/
def physLoc (s : Segment) (i : Nat) : Nat × Nat :=
  (i / s.segletSize, i % s.segletSize)

/-- The seglet decomposition computed inside `Segment::peek` (Segment.h
lines 309-319): when `segletSizeShift != 0` use the bit-operation fast path
`(offset & (segletSize - 1), offset >> segletSizeShift)`, otherwise
`(offset, 0)`.  Returns `(segletOffset, segletIndex)`. -/
def segletDecomp (s : Segment) (offset : Nat) : Nat × Nat :=
  if s.segletSizeShift ≠ 0 then
    (offset &&& (s.segletSize - 1), offset >>> s.segletSizeShift)
  else
    (offset, 0)

/-- `Segment::peek` (Segment.h lines 303-327).  The out-parameter
`outAddress` is threaded explicitly: the function receives its current value
and returns `(returnValue, newValueOfOutAddress)`.  On an out-of-range
offset the source returns 0 immediately, without writing to `*outAddress`,
so the incoming value is returned unchanged. -/
def peek (s : Segment) (offset : Nat) (outAddress : Option (Nat × Nat)) :
    Nat × Option (Nat × Nat) :=
  if offset ≥ s.segletSize * s.segletBlocks.length then
    (0, outAddress)
  else
    ((s.segletSize - (segletDecomp s offset).1),
     some ((segletDecomp s offset).2, (segletDecomp s offset).1))

/-- Well-formedness of the seglet geometry, from the documentation of
`segletSizeShift` (Segment.h lines 340-345): if the segment consists of
multiple seglets then `segletSizeShift = log2(segletSize)` (so `segletSize`
is that power of two); otherwise the shift is 0. -/
def wellFormed (s : Segment) : Prop :=
  (s.segletSizeShift ≠ 0 → s.segletSize = 2 ^ s.segletSizeShift) ∧
  (s.segletSizeShift = 0 → s.segletBlocks.length ≤ 1)

/-- Modelled from the spec: `Segment::close` is declared in Segment.h (line
271) but defined in Segment.cc, which is not part of the source tree.  Per
spec section 4.1, `close()` sets `closed = true` and is idempotent. -/
def close (s : Segment) : Segment :=
  { s with closed := true }

/-- Modelled from the spec: `Segment::append` is declared in Segment.h
(lines 264-267) but defined in Segment.cc, which is not part of the source
tree.  Per spec section 4.1, append writes the one-byte `EntryHeader`, the
`lengthBytes` little-endian length bytes, then the payload, at `head`; it
updates `head`, feeds exactly the header and length bytes to the running
checksum, and bumps the per-type count and byte tally.  On failure (segment
closed, or insufficient space) it returns failure and leaves the state
unchanged. -/
def append (type : Nat) (data : List Nat) (s : Segment) : Option Nat × Segment :=
  if s.closed then
    (none, s)
  else
    let lb := lengthBucket data.length + 1
    let needed := 1 + lb + data.length
    if s.head + needed > s.segletSize * s.segletBlocks.length then
      (none, s)
    else
      let meta := (makeEntryHeader type data.length).lengthBytesAndType ::
        leBytes lb data.length
      (some (s.head + 1 + lb),
       { s with
          head := s.head + needed
          bytes := writeBytes s.bytes s.head (meta ++ data)
          checksumFed := s.checksumFed ++ meta
          entryCounts := fun t =>
            if t = type then s.entryCounts t + 1 else s.entryCounts t
          entryLengths := fun t =>
            if t = type then s.entryLengths t + data.length else s.entryLengths t })

/-- Replay a sequence of appends (type, payload pairs), keeping only the
final state. -/
def appendMany (s : Segment) : List (Nat × List Nat) → Segment
  | [] => s
  | td :: rest => appendMany (append td.1 td.2 s).2 rest

/-! ## Helper lemmas -/

theorem lengthBucket_lt_four (L : Nat) : lengthBucket L < 4 := by
  unfold lengthBucket
  split_ifs <;> omega

theorem lor_shl6_shr6 : ∀ t < 64, ∀ b < 4, (t ||| (b <<< 6)) >>> 6 = b := by
  decide

theorem lor_shl6_and63 : ∀ t < 64, ∀ b < 4, (t ||| (b <<< 6)) &&& 63 = t := by
  decide

theorem lengthBucket_minimal (L : Nat) (hL : L < 2 ^ 32) :
    L < 256 ^ (lengthBucket L + 1) ∧
      ∀ j, 1 ≤ j → L < 256 ^ j → lengthBucket L + 1 ≤ j := by
  unfold lengthBucket
  split
  · refine ⟨by norm_num; omega, ?_⟩
    intro j hj _
    omega
  · split
    · refine ⟨by norm_num; omega, ?_⟩
      intro j hj hLj
      by_contra hc
      interval_cases j
      norm_num at hLj
      omega
    · split
      · refine ⟨by norm_num; omega, ?_⟩
        intro j hj hLj
        by_contra hc
        interval_cases j <;> (norm_num at hLj; omega)
      · refine ⟨by norm_num; omega, ?_⟩
        intro j hj hLj
        by_contra hc
        interval_cases j <;> (norm_num at hLj; omega)

theorem leBytes_length : ∀ w v, (leBytes w v).length = w := by
  intro w
  induction w with
  | zero => intro v; rfl
  | succ n ih => intro v; simp [leBytes, ih]

theorem segletDecomp_divmod (s : Segment) (offset : Nat)
    (hshift : s.segletSizeShift ≠ 0)
    (hpow : s.segletSize = 2 ^ s.segletSizeShift) :
    segletDecomp s offset = (offset % s.segletSize, offset / s.segletSize) := by
  unfold segletDecomp
  rw [if_pos hshift, hpow]
  rw [Nat.and_pow_two_sub_one_eq_mod, Nat.shiftRight_eq_div_pow]

/-! ## Claim theorems -/

/-- C1: for every payload length `L` (a `uint32_t`) and valid entry type,
the `EntryHeader` constructor encodes in its high two bits the value `k - 1`
where `k` is the smallest element of `{1,2,3,4}` with `L < 256^k`, and
`getLengthBytes()` on the resulting header returns exactly that minimal
`k`. -/
theorem entryHeader_encodes_minimal_length_bytes (t L : Nat)
    (ht : t < 64) (hL : L < 2 ^ 32) :
    ∃ k, 1 ≤ k ∧ k ≤ 4 ∧ L < 256 ^ k ∧
      (∀ j, 1 ≤ j → L < 256 ^ j → k ≤ j) ∧
      (makeEntryHeader t L).lengthBytesAndType >>> 6 = k - 1 ∧
      (makeEntryHeader t L).getLengthBytes = some k := by
  have hb := lengthBucket_lt_four L
  have hshr : (makeEntryHeader t L).lengthBytesAndType >>> 6 = lengthBucket L := by
    simp only [makeEntryHeader]
    exact lor_shl6_shr6 t ht _ hb
  refine ⟨lengthBucket L + 1, by omega, by omega,
    (lengthBucket_minimal L hL).1, (lengthBucket_minimal L hL).2,
    by rw [hshr]; omega, ?_⟩
  unfold EntryHeader.getLengthBytes downCastU8
  rw [hshr, if_pos (by omega)]

/-- Witness for C1 at `t = 7`, `L = 300` (which needs two length bytes). -/
theorem entryHeader_encodes_minimal_length_bytes_witness :
    ∃ k, 1 ≤ k ∧ k ≤ 4 ∧ 300 < 256 ^ k ∧
      (∀ j, 1 ≤ j → 300 < 256 ^ j → k ≤ j) ∧
      (makeEntryHeader 7 300).lengthBytesAndType >>> 6 = k - 1 ∧
      (makeEntryHeader 7 300).getLengthBytes = some k :=
  entryHeader_encodes_minimal_length_bytes 7 300 (by decide) (by norm_num)

/-- C5: for every entry type ordinal `t < 64` and every payload length `L`,
`getType()` applied to `EntryHeader(t, L)` returns `t`: the type round-trips
through the low 6 bits, undisturbed by the length-width bits. -/
theorem entryHeader_type_roundtrip (t L : Nat) (ht : t < 64) :
    (makeEntryHeader t L).getType = t := by
  have hb := lengthBucket_lt_four L
  simp only [EntryHeader.getType, makeEntryHeader]
  exact lor_shl6_and63 t ht _ hb

/-- Witness for C5 at `t = 9`, `L = 100000`. -/
theorem entryHeader_type_roundtrip_witness :
    (makeEntryHeader 9 100000).getType = 9 :=
  entryHeader_type_roundtrip 9 100000 (by decide)

set_option maxRecDepth 4000 in
/-- C9: for every possible packed byte value, `getLengthBytes()` is total
(the internal `downCast` to `uint8_t` succeeds) and returns a value in
`{1,2,3,4}`. -/
theorem getLengthBytes_total_and_bounded :
    ∀ b < 256, ((EntryHeader.mk b).getLengthBytes).isSome = true ∧
      1 ≤ ((EntryHeader.mk b).getLengthBytes).getD 0 ∧
      ((EntryHeader.mk b).getLengthBytes).getD 0 ≤ 4 := by
  decide

/-- Witness for C9 at the byte value `255`. -/
theorem getLengthBytes_total_and_bounded_witness :
    ((EntryHeader.mk 255).getLengthBytes).isSome = true ∧
      1 ≤ ((EntryHeader.mk 255).getLengthBytes).getD 0 ∧
      ((EntryHeader.mk 255).getLengthBytes).getD 0 ≤ 4 :=
  getLengthBytes_total_and_bounded 255 (by decide)

/-- C10: `EntryHeader` equality is decided solely by the packed byte: for
valid types `t1, t2 < 64` and any lengths, the headers compare equal exactly
when the types agree and the lengths fall in the same width bucket. -/
theorem entryHeader_eq_iff (t1 t2 L1 L2 : Nat) (h1 : t1 < 64) (h2 : t2 < 64) :
    EntryHeader.beq (makeEntryHeader t1 L1) (makeEntryHeader t2 L2) = true ↔
      t1 = t2 ∧ lengthBucket L1 = lengthBucket L2 := by
  have hb1 := lengthBucket_lt_four L1
  have hb2 := lengthBucket_lt_four L2
  simp only [EntryHeader.beq, makeEntryHeader, beq_iff_eq]
  constructor
  · intro h
    have ht : t2 = t1 := by
      have h63 := congrArg (· &&& 63) h
      simpa [lor_shl6_and63 t2 h2 _ hb2, lor_shl6_and63 t1 h1 _ hb1] using h63
    have hbk : lengthBucket L2 = lengthBucket L1 := by
      have h6 := congrArg (· >>> 6) h
      simpa [lor_shl6_shr6 t2 h2 _ hb2, lor_shl6_shr6 t1 h1 _ hb1] using h6
    exact ⟨ht.symm, hbk.symm⟩
  · rintro ⟨rfl, hbeq⟩
    rw [hbeq]

/-- Witness for C10 at `t1 = t2 = 5`, `L1 = 3`, `L2 = 200` (same width
bucket). -/
theorem entryHeader_eq_iff_witness :
    EntryHeader.beq (makeEntryHeader 5 3) (makeEntryHeader 5 200) = true ↔
      5 = 5 ∧ lengthBucket 3 = lengthBucket 200 :=
  entryHeader_eq_iff 5 5 3 200 (by decide) (by decide)

/-- A concrete single-block segment (segletSize 4, shift 0) used to
instantiate theorems about `peek`. -/
def segOne : Segment :=
  ⟨4, 0, [11], false, 0, fun _ => 0, [], fun _ => 0, fun _ => 0⟩

/-- A concrete two-block segment (segletSize 8 = 2^3, shift 3) used to
instantiate theorems about `peek`. -/
def segTwo : Segment :=
  ⟨8, 3, [21, 22], false, 0, fun _ => 0, [], fun _ => 0, fun _ => 0⟩

/-- C2: for every in-range logical offset on a well-formed segment with
positive seglet size, `peek` returns the run length
`segletSize - offset % segletSize` together with the address of block
`offset / segletSize` at intra-block offset `offset % segletSize`, and the
bytes `[offset, offset + run)` are physically contiguous from that address:
byte `offset + j` lives in the same block at intra-block offset
`offset % segletSize + j`. -/
theorem peek_in_range (s : Segment) (offset : Nat) (out : Option (Nat × Nat))
    (hwf : wellFormed s) (hpos : 0 < s.segletSize)
    (hin : offset < s.segletSize * s.segletBlocks.length) :
    peek s offset out =
      (s.segletSize - offset % s.segletSize,
        some (offset / s.segletSize, offset % s.segletSize)) ∧
    ∀ j, j < s.segletSize - offset % s.segletSize →
      physLoc s (offset + j) = (offset / s.segletSize, offset % s.segletSize + j) := by
  have hd : segletDecomp s offset = (offset % s.segletSize, offset / s.segletSize) := by
    by_cases hz : s.segletSizeShift = 0
    · have hlen := hwf.2 hz
      have hlt : offset < s.segletSize := by
        have hle : s.segletSize * s.segletBlocks.length ≤ s.segletSize * 1 :=
          Nat.mul_le_mul_left _ hlen
        omega
      simp [segletDecomp, hz, Nat.mod_eq_of_lt hlt, Nat.div_eq_of_lt hlt]
    · exact segletDecomp_divmod s offset hz (hwf.1 hz)
  constructor
  · unfold peek
    rw [if_neg (by omega), hd]
  · intro j hj
    have hmod : offset % s.segletSize + j < s.segletSize := by
      have := Nat.mod_lt offset hpos
      omega
    have key : offset + j =
        (offset % s.segletSize + j) + (offset / s.segletSize) * s.segletSize := by
      conv_lhs => rw [← Nat.div_add_mod offset s.segletSize]
      ring
    unfold physLoc
    rw [key, Nat.add_mul_div_right _ _ hpos, Nat.div_eq_of_lt hmod,
      Nat.add_mul_mod_self_right, Nat.mod_eq_of_lt hmod, Nat.zero_add]

/-- Witness for C2 on the two-block segment `segTwo` at offset 11. -/
theorem peek_in_range_witness :
    peek segTwo 11 none =
      (segTwo.segletSize - 11 % segTwo.segletSize,
        some (11 / segTwo.segletSize, 11 % segTwo.segletSize)) ∧
    ∀ j, j < segTwo.segletSize - 11 % segTwo.segletSize →
      physLoc segTwo (11 + j) =
        (11 / segTwo.segletSize, 11 % segTwo.segletSize + j) :=
  peek_in_range segTwo 11 none
    ⟨fun _ => rfl, fun h => absurd h (by decide)⟩ (by decide) (by decide)

/-- C4 counterexample: on the single-block segment `segOne` (capacity 4),
the out-of-range call `peek(4, &out)` with `out` initially the non-null
address `(7, 7)` does not produce the pair `(0, null)` the claim requires:
the source returns 0 without writing to `*outAddress`. -/
theorem peek_out_of_range_counterexample :
    ¬ peek segOne 4 (some (7, 7)) = (0, none) := by
  decide

/-- C4 (amended): for every out-of-range offset, `peek` returns run length 0
and leaves the out-parameter pointer unchanged (it does not write to it). -/
theorem peek_out_of_range (s : Segment) (offset : Nat)
    (out : Option (Nat × Nat))
    (h : offset ≥ s.segletSize * s.segletBlocks.length) :
    peek s offset out = (0, out) := by
  unfold peek
  rw [if_pos h]

/-- Witness for amended C4: `segOne` has capacity 4, so offset 4 is out of
range and the incoming out-parameter value survives. -/
theorem peek_out_of_range_witness :
    peek segOne 4 (some (7, 7)) = (0, some (7, 7)) :=
  peek_out_of_range segOne 4 (some (7, 7)) (by decide)

/-- C6: when `segletSizeShift ≠ 0` and `segletSize = 2^segletSizeShift`, the
bit-operation fast path of `peek` (mask with `segletSize - 1`, shift right by
`segletSizeShift`) computes exactly the division/modulo decomposition
`(offset % segletSize, offset / segletSize)` for every offset. -/
theorem segletDecomp_fast_path_eq_divmod (s : Segment) (offset : Nat)
    (hshift : s.segletSizeShift ≠ 0)
    (hpow : s.segletSize = 2 ^ s.segletSizeShift) :
    segletDecomp s offset = (offset % s.segletSize, offset / s.segletSize) :=
  segletDecomp_divmod s offset hshift hpow

/-- Witness for C6 on `segTwo` (segletSize 8 = 2^3) at offset 11. -/
theorem segletDecomp_fast_path_eq_divmod_witness :
    segletDecomp segTwo 11 = (11 % segTwo.segletSize, 11 / segTwo.segletSize) :=
  segletDecomp_fast_path_eq_divmod segTwo 11 (by decide) (by decide)

/-- C7: the wire size of every `EntryHeader` is exactly 1 byte, and the wire
size of every `Certificate` is exactly 8 bytes (4-byte `segmentLength`
followed by the 4-byte `checksum`, no padding). -/
theorem wire_sizes (h : EntryHeader) (c : Certificate) :
    (encodeEntryHeader h).length = 1 ∧ (encodeCertificate c).length = 8 := by
  refine ⟨rfl, ?_⟩
  simp [encodeCertificate, leBytes_length]

/-- C8: `DEFAULT_SEGMENT_SIZE` is 8 MiB in the production configuration and
1 MiB in the Valgrind (diagnostic/low-memory) configuration. -/
theorem default_segment_size_values :
    DEFAULT_SEGMENT_SIZE false = 8 * 1024 * 1024 ∧
      DEFAULT_SEGMENT_SIZE true = 1 * 1024 * 1024 := by
  exact ⟨rfl, rfl⟩

/-- C3: after `close()`, any single append fails and returns the state
unchanged, any sequence of subsequent appends leaves the state unchanged,
and `close()` itself does not move `head` — so `head` (along with the
checksum, entry tallies and segment bytes) never changes once the segment is
closed. -/
theorem append_after_close_fails (s : Segment) (t : Nat) (d : List Nat)
    (l : List (Nat × List Nat)) :
    append t d (close s) = (none, close s) ∧
      appendMany (close s) l = close s ∧
      (close s).head = s.head := by
  have h1 : ∀ t d, append t d (close s) = (none, close s) := by
    intro t d
    simp [append, close]
  refine ⟨h1 t d, ?_, rfl⟩
  induction l with
  | nil => rfl
  | cons td rest ih =>
      show appendMany (append td.1 td.2 (close s)).2 rest = close s
      rw [h1 td.1 td.2]
      exact ih

end RAMCloud
